import Mathlib

/-!
# Verification of the conmon-rs log-capture core

Shallow embedding of `src/conmon-rs/server/src/json_logger.rs` and
`src/conmon-rs/server/src/container_log.rs`.

Bytes are modelled as `Nat` (values < 256 in practice), byte streams as
`List Nat`.  The tokio `BufWriter<File>` is modelled by `FileSt`, which keeps
the bytes already written through to the OS file (`onDisk`) separate from the
bytes still sitting in the writer's 8 KiB buffer (`buf`).  Filesystem-visible
actions (truncating open, `sync_all`, record writes) are recorded in a ghost
event trace so that rotation ordering can be stated.  Wall-clock timestamps
(`SystemTime::now()` formatted with `{:?}`) are nondeterministic inputs, so
`write` takes the per-line timestamp strings as an explicit oracle
`ts : Nat → List Char`.  Fallible operations return the post-state together
with an `Except String Unit`, mirroring `&mut self` methods returning
`Result<()>` (state mutations survive an error return).
-/

/-- The two output channels of the supervised process
(`container_io::Pipe`). -/
inductive Pipe where
  | stdOut : Pipe
  | stdErr : Pipe
deriving DecidableEq, Repr

/-- The string the JSON logger stores in the `pipe` field
(`match pipe { Pipe::StdOut => "stdout", Pipe::StdErr => "stderr" }`). -/
def pipeStr : Pipe → List Char
  | Pipe.stdOut => "stdout".data
  | Pipe.stdErr => "stderr".data

/-- The Unicode replacement character U+FFFD used by
`String::from_utf8_lossy`. -/
def replacementChar : Char := Char.ofNat 0xFFFD

/-- Is `b` a UTF-8 continuation byte (`0x80..=0xBF`)? -/
def isCont (b : Nat) : Bool := 0x80 ≤ b && b ≤ 0xBF

/-- Valid first-continuation ranges for a three-byte lead
(`0xE0` needs `0xA0..=0xBF`, `0xED` excludes surrogates). -/
def isCont3 (b c : Nat) : Bool :=
  if b = 0xE0 then 0xA0 ≤ c && c ≤ 0xBF
  else if b = 0xED then 0x80 ≤ c && c ≤ 0x9F
  else isCont c

/-- Valid first-continuation ranges for a four-byte lead
(`0xF0` needs `0x90..=0xBF`, `0xF4` caps at `0x8F`). -/
def isCont4 (b c : Nat) : Bool :=
  if b = 0xF0 then 0x90 ≤ c && c ≤ 0xBF
  else if b = 0xF4 then 0x80 ≤ c && c ≤ 0x8F
  else isCont c

/-- One step of lossy UTF-8 decoding, driven by a fuel counter so that the
recursion is structural (fuel `≥` input length suffices because every step
consumes at least one byte).  Invalid maximal subparts become one
U+FFFD each, matching `String::from_utf8_lossy`. -/
def utf8LossyFuel : Nat → List Nat → List Char
  | 0, _ => []
  | _ + 1, [] => []
  | fuel + 1, b :: rest =>
    if b < 0x80 then Char.ofNat b :: utf8LossyFuel fuel rest
    else if 0xC2 ≤ b && b ≤ 0xDF then
      match rest with
      | [] => [replacementChar]
      | c :: rest2 =>
        if isCont c then
          Char.ofNat ((b - 0xC0) * 64 + (c - 0x80)) :: utf8LossyFuel fuel rest2
        else replacementChar :: utf8LossyFuel fuel rest
    else if 0xE0 ≤ b && b ≤ 0xEF then
      match rest with
      | [] => [replacementChar]
      | c1 :: rest2 =>
        if isCont3 b c1 then
          match rest2 with
          | [] => [replacementChar]
          | c2 :: rest3 =>
            if isCont c2 then
              Char.ofNat ((b - 0xE0) * 4096 + (c1 - 0x80) * 64 + (c2 - 0x80)) ::
                utf8LossyFuel fuel rest3
            else replacementChar :: utf8LossyFuel fuel rest2
        else replacementChar :: utf8LossyFuel fuel rest
    else if 0xF0 ≤ b && b ≤ 0xF4 then
      match rest with
      | [] => [replacementChar]
      | c1 :: rest2 =>
        if isCont4 b c1 then
          match rest2 with
          | [] => [replacementChar]
          | c2 :: rest3 =>
            if isCont c2 then
              match rest3 with
              | [] => [replacementChar]
              | c3 :: rest4 =>
                if isCont c3 then
                  Char.ofNat ((b - 0xF0) * 262144 + (c1 - 0x80) * 4096 +
                      (c2 - 0x80) * 64 + (c3 - 0x80)) :: utf8LossyFuel fuel rest4
                else replacementChar :: utf8LossyFuel fuel rest3
            else replacementChar :: utf8LossyFuel fuel rest2
        else replacementChar :: utf8LossyFuel fuel rest
    else replacementChar :: utf8LossyFuel fuel rest

/-- Lossy UTF-8 decoding of a byte sequence (`String::from_utf8_lossy`). -/
def utf8Lossy (bs : List Nat) : List Char := utf8LossyFuel bs.length bs

/-- Rust's `char::is_whitespace`: the Unicode `White_Space` property. -/
def isRustWhitespace (c : Char) : Bool :=
  let n := c.toNat
  (0x09 ≤ n && n ≤ 0x0D) || n = 0x20 || n = 0x85 || n = 0xA0 || n = 0x1680 ||
  (0x2000 ≤ n && n ≤ 0x200A) || n = 0x2028 || n = 0x2029 || n = 0x202F ||
  n = 0x205F || n = 0x3000

/-- Rust's `str::trim`: drop leading and trailing whitespace. -/
def trimChars (l : List Char) : List Char :=
  ((l.dropWhile isRustWhitespace).reverse.dropWhile isRustWhitespace).reverse

/-- The `message` field computed for one raw line:
`String::from_utf8_lossy(&line_buf).trim().to_string()`. -/
def msgOf (line : List Nat) : List Char := trimChars (utf8Lossy line)

/-- One structured log record as built by the `json!` macro in
`JsonLogger::write`. -/
structure LogEntry where
  timestamp : List Char
  pipe : Pipe
  message : List Char
deriving DecidableEq, Repr

/-- The double-quote character. -/
def quoteChar : Char := Char.ofNat 34

/-- The backslash character. -/
def backslashChar : Char := Char.ofNat 92

/-- Opening curly brace. -/
def lbraceChar : Char := Char.ofNat 123

/-- Closing curly brace. -/
def rbraceChar : Char := Char.ofNat 125

/-- Lowercase hex digit, as used by serde_json for `\u00XY` escapes. -/
def hexDigit (n : Nat) : Char :=
  if n < 10 then Char.ofNat (48 + n) else Char.ofNat (87 + n)

/-- serde_json's escaping of one character inside a JSON string literal. -/
def escChar (c : Char) : List Char :=
  if c = quoteChar then [backslashChar, quoteChar]
  else if c = backslashChar then [backslashChar, backslashChar]
  else if c.toNat = 8 then [backslashChar, 'b']
  else if c.toNat = 9 then [backslashChar, 't']
  else if c.toNat = 10 then [backslashChar, 'n']
  else if c.toNat = 12 then [backslashChar, 'f']
  else if c.toNat = 13 then [backslashChar, 'r']
  else if c.toNat < 32 then
    [backslashChar, 'u', '0', '0', hexDigit (c.toNat / 16), hexDigit (c.toNat % 16)]
  else [c]

/-- A JSON string literal: quote, escaped body, quote. -/
def jsonQuote (s : List Char) : List Char :=
  quoteChar :: s.flatMap escChar ++ [quoteChar]

/-- Compact serialization of one record (`log_entry.to_string()`).
serde_json's `Value` objects keep keys in sorted order
(`message < pipe < timestamp`). -/
def serializeEntry (e : LogEntry) : List Char :=
  lbraceChar :: jsonQuote "message".data ++ [':'] ++ jsonQuote e.message ++ [','] ++
    jsonQuote "pipe".data ++ [':'] ++ jsonQuote (pipeStr e.pipe) ++ [','] ++
    jsonQuote "timestamp".data ++ [':'] ++ jsonQuote e.timestamp ++ [rbraceChar]

/-- UTF-8 encoding of one character. -/
def utf8EncodeChar (c : Char) : List Nat :=
  let n := c.toNat
  if n < 0x80 then [n]
  else if n < 0x800 then [0xC0 + n / 64, 0x80 + n % 64]
  else if n < 0x10000 then [0xE0 + n / 4096, 0x80 + n / 64 % 64, 0x80 + n % 64]
  else [0xF0 + n / 262144, 0x80 + n / 4096 % 64, 0x80 + n / 64 % 64, 0x80 + n % 64]

/-- UTF-8 encoding of a character sequence. -/
def utf8Encode (s : List Char) : List Nat := s.flatMap utf8EncodeChar

/-- The serialized bytes of a record (`log_str.as_bytes()`). -/
def recBytes (e : LogEntry) : List Nat := utf8Encode (serializeEntry e)

/-- The serialized size of a record (`bytes.len()`), the amount added to
`bytes_written` for each line. -/
def recSize (e : LogEntry) : Nat := (recBytes e).length

/-- Model of `BufWriter<File>`: `onDisk` holds bytes already written through
to the OS file, `buf` holds bytes still in the writer's buffer. -/
structure FileSt where
  onDisk : List Nat
  buf : List Nat
deriving DecidableEq, Repr

/-- tokio's `BufWriter` default capacity (8 KiB). -/
def bufCapacity : Nat := 8192

/-- `BufWriter::write_all`: spill the buffer when it would overflow, write
oversized chunks straight through, otherwise append to the buffer. -/
def FileSt.writeAll (f : FileSt) (bs : List Nat) : FileSt :=
  if f.buf.length + bs.length > bufCapacity then
    if bs.length ≥ bufCapacity then ⟨f.onDisk ++ f.buf ++ bs, []⟩
    else ⟨f.onDisk ++ f.buf, bs⟩
  else ⟨f.onDisk, f.buf ++ bs⟩

/-- `BufWriter::flush`: push all buffered bytes through to the file. -/
def FileSt.flushBuf (f : FileSt) : FileSt := ⟨f.onDisk ++ f.buf, []⟩

/-- Everything handed to the writer so far, in order. -/
def FileSt.content (f : FileSt) : List Nat := f.onDisk ++ f.buf

/-- A freshly opened (truncated) file with an empty writer buffer. -/
def emptyFile : FileSt := ⟨[], []⟩

/-- Ghost trace of filesystem-visible actions: a truncating open
(`OpenOptions ... .truncate(true).open`), a `sync_all` durably persisting
exactly the given byte content, and one record (plus its newline) handed to
the writer. -/
inductive Ev where
  | opened : Ev
  | synced : List Nat → Ev
  | wrote : LogEntry → Ev
deriving DecidableEq, Repr

/-- The error message of `JsonLogger::ERR_UNINITIALIZED`. -/
def errUninitialized : String := "logger not initialized"

/-- State of `JsonLogger`, plus the ghost event trace. -/
structure JsonLogger where
  path : List Char
  file : Option FileSt
  maxLogSize : Option Nat
  bytesWritten : Nat
  events : List Ev
deriving DecidableEq, Repr

/-- `JsonLogger::new`: no file handle yet, zero bytes written. -/
def JsonLogger.new (path : List Char) (maxLogSize : Option Nat) : JsonLogger :=
  ⟨path, none, maxLogSize, 0, []⟩

/-- `JsonLogger::init`: open the path with create/truncate/read/write and
install a fresh buffered writer over it (`Self::open`). -/
def JsonLogger.init (st : JsonLogger) : JsonLogger × Except String Unit :=
  ({ st with file := some emptyFile, events := st.events ++ [Ev.opened] }, Except.ok ())

/-- `JsonLogger::reopen`: `sync_all` on the *inner* file (via `get_ref()`,
bypassing the writer buffer), then the same logic as `init`. -/
def JsonLogger.reopen (st : JsonLogger) : JsonLogger × Except String Unit :=
  match st.file with
  | none => (st, Except.error errUninitialized)
  | some f =>
    JsonLogger.init { st with events := st.events ++ [Ev.synced f.onDisk] }

/-- `JsonLogger::flush`: flush the buffered writer. -/
def JsonLogger.flush (st : JsonLogger) : JsonLogger × Except String Unit :=
  match st.file with
  | none => (st, Except.error errUninitialized)
  | some f => ({ st with file := some f.flushBuf }, Except.ok ())

/-- Append one serialized record plus its newline byte to the writer
(the two `write_all` calls of the loop body). -/
def appendRec (f : FileSt) (e : LogEntry) : FileSt :=
  (f.writeAll (recBytes e)).writeAll [10]

/-- One iteration of the `read_until` loop in `JsonLogger::write`: build the
record, count its serialized size, maybe rotate, then write it. -/
def JsonLogger.writeLine (st : JsonLogger) (pipe : Pipe) (ts : List Char)
    (line : List Nat) : JsonLogger × Except String Unit :=
  let e : LogEntry := ⟨ts, pipe, msgOf line⟩
  let st1 := { st with bytesWritten := st.bytesWritten + recSize e }
  let rot : JsonLogger × Except String Unit :=
    match st1.maxLogSize with
    | some maxSize =>
      if st1.bytesWritten > maxSize then
        match st1.reopen with
        | (st2, Except.ok _) => ({ st2 with bytesWritten := 0 }, Except.ok ())
        | (st2, Except.error err) => (st2, Except.error err)
      else (st1, Except.ok ())
    | none => (st1, Except.ok ())
  match rot with
  | (st2, Except.error err) => (st2, Except.error err)
  | (st2, Except.ok _) =>
    match st2.file with
    | none => (st2, Except.error errUninitialized)
    | some f =>
      ({ st2 with file := some (appendRec f e),
                  events := st2.events ++ [Ev.wrote e] }, Except.ok ())

/-- The `while read_until > 0` loop over the remaining complete lines;
`i` indexes the timestamp oracle. -/
def JsonLogger.writeLines (st : JsonLogger) (pipe : Pipe) (ts : Nat → List Char)
    (i : Nat) : List (List Nat) → JsonLogger × Except String Unit
  | [] => (st, Except.ok ())
  | l :: rest =>
    match st.writeLine pipe (ts i) l with
    | (st1, Except.error err) => (st1, Except.error err)
    | (st1, Except.ok _) => st1.writeLines pipe ts (i + 1) rest

/-- Split a byte stream the way the `read_until(b'\n')` loop does: each
segment keeps its terminating newline byte; a nonempty unterminated tail is
returned as a final segment (that is what `read_until` yields at EOF). -/
def splitLinesAux (acc : List Nat) : List Nat → List (List Nat)
  | [] => if acc.isEmpty then [] else [acc.reverse]
  | b :: rest =>
    if b = 10 then (acc.reverse ++ [10]) :: splitLinesAux [] rest
    else splitLinesAux (b :: acc) rest

/-- All segments the `read_until` loop yields for a byte stream. -/
def splitLines (bs : List Nat) : List (List Nat) := splitLinesAux [] bs

/-- `JsonLogger::write`: process every segment of the stream in order. -/
def JsonLogger.write (st : JsonLogger) (pipe : Pipe) (ts : Nat → List Char)
    (bs : List Nat) : JsonLogger × Except String Unit :=
  st.writeLines pipe ts 0 (splitLines bs)

/-- Modelled from the spec: the sibling channel-tagged driver (`CriLogger`)
is not under `src/`; only its shared `{init, write, reopen}` contract is
modelled here (uninitialized operations fail, `init` opens, `reopen` rotates,
`write` records the full stream), its concrete record format being an
external detail the spec leaves out. -/
structure CriLogger where
  path : List Char
  maxLogSize : Option Nat
  initialized : Bool
  entries : List (Pipe × List Nat)
deriving DecidableEq, Repr

/-- Modelled from the spec: construction does not touch the filesystem. -/
def CriLogger.new (path : List Char) (maxLogSize : Option Nat) : CriLogger :=
  ⟨path, maxLogSize, false, []⟩

/-- Modelled from the spec: `init` opens (truncates) the file. -/
def CriLogger.init (c : CriLogger) : CriLogger × Except String Unit :=
  ({ c with initialized := true, entries := [] }, Except.ok ())

/-- Modelled from the spec: `reopen` fails when uninitialized, otherwise
truncates. -/
def CriLogger.reopen (c : CriLogger) : CriLogger × Except String Unit :=
  if c.initialized then ({ c with entries := [] }, Except.ok ())
  else (c, Except.error errUninitialized)

/-- Modelled from the spec: `write` fails when uninitialized, otherwise
records the complete stream. -/
def CriLogger.write (c : CriLogger) (pipe : Pipe) (bs : List Nat) :
    CriLogger × Except String Unit :=
  if c.initialized then ({ c with entries := c.entries ++ [(pipe, bs)] }, Except.ok ())
  else (c, Except.error errUninitialized)

/-- The tagged union `LogDriver` of `container_log.rs`. -/
inductive LogDriver where
  | containerRuntimeInterface : CriLogger → LogDriver
  | json : JsonLogger → LogDriver
deriving DecidableEq, Repr

/-- Per-driver `init` dispatch (the `match` arms inside `ContainerLog::init`). -/
def LogDriver.init : LogDriver → LogDriver × Except String Unit
  | LogDriver.containerRuntimeInterface c =>
    (LogDriver.containerRuntimeInterface c.init.1, c.init.2)
  | LogDriver.json j => (LogDriver.json j.init.1, j.init.2)

/-- Per-driver `reopen` dispatch. -/
def LogDriver.reopen : LogDriver → LogDriver × Except String Unit
  | LogDriver.containerRuntimeInterface c =>
    (LogDriver.containerRuntimeInterface c.reopen.1, c.reopen.2)
  | LogDriver.json j => (LogDriver.json j.reopen.1, j.reopen.2)

/-- Per-driver `write` dispatch: each driver receives its own full clone of
the byte stream (`bytes.clone()`). -/
def LogDriver.write (d : LogDriver) (pipe : Pipe) (ts : Nat → List Char)
    (bs : List Nat) : LogDriver × Except String Unit :=
  match d with
  | LogDriver.containerRuntimeInterface c =>
    (LogDriver.containerRuntimeInterface (c.write pipe bs).1, (c.write pipe bs).2)
  | LogDriver.json j => (LogDriver.json (j.write pipe ts bs).1, (j.write pipe ts bs).2)

/-- The size limit a driver was configured with. -/
def LogDriver.maxSizeOf : LogDriver → Option Nat
  | LogDriver.containerRuntimeInterface c => c.maxLogSize
  | LogDriver.json j => j.maxLogSize

/-- The multiplexer `ContainerLog`: an ordered collection of drivers. -/
structure ContainerLog where
  drivers : List LogDriver
deriving DecidableEq, Repr

/-- The two known values of the wire enum `log_driver::Type`. -/
inductive DriverType where
  | containerRuntimeInterface : DriverType
  | json : DriverType
deriving DecidableEq, Repr

/-- One decoded driver-configuration entry (`type`, `path`, `max_size`). -/
structure LogConfig where
  typ : DriverType
  path : List Char
  maxSize : Nat
deriving DecidableEq, Repr

/-- One arm of the `map` inside `ContainerLog::from`:
`max_size > 0` becomes `Some(max_size)`, zero becomes `None`. -/
def mkDriver (cfg : LogConfig) : LogDriver :=
  match cfg.typ with
  | DriverType.containerRuntimeInterface =>
    LogDriver.containerRuntimeInterface
      (CriLogger.new cfg.path (if cfg.maxSize > 0 then some cfg.maxSize else none))
  | DriverType.json =>
    LogDriver.json
      (JsonLogger.new cfg.path (if cfg.maxSize > 0 then some cfg.maxSize else none))

/-- `ContainerLog::from`: construct every driver from its entry. -/
def ContainerLog.from (cfgs : List LogConfig) : ContainerLog :=
  ⟨cfgs.map mkDriver⟩

/-- `collect::<Result<Vec<_>>>` over the joined per-driver results: the
first error in driver iteration order, otherwise success. -/
def collectResults : List (Except String Unit) → Except String Unit
  | [] => Except.ok ()
  | Except.error err :: _ => Except.error err
  | Except.ok _ :: rest => collectResults rest

/-- `ContainerLog::init`: `join_all` lets every driver's `init` run to
completion, then the results are collected. -/
def ContainerLog.init (cl : ContainerLog) : ContainerLog × Except String Unit :=
  let rs := cl.drivers.map LogDriver.init
  (⟨rs.map Prod.fst⟩, collectResults (rs.map Prod.snd))

/-- `ContainerLog::reopen`: same fan-out shape as `init`. -/
def ContainerLog.reopen (cl : ContainerLog) : ContainerLog × Except String Unit :=
  let rs := cl.drivers.map LogDriver.reopen
  (⟨rs.map Prod.fst⟩, collectResults (rs.map Prod.snd))

/-- `ContainerLog::write`: every driver gets a clone of the stream, all
sub-writes run to completion, results are collected. -/
def ContainerLog.write (cl : ContainerLog) (pipe : Pipe) (ts : Nat → List Char)
    (bs : List Nat) : ContainerLog × Except String Unit :=
  let rs := cl.drivers.map (fun d => d.write pipe ts bs)
  (⟨rs.map Prod.fst⟩, collectResults (rs.map Prod.snd))

/-- The three fanned-out multiplexer operations, as one indexed family. -/
inductive MuxOp where
  | init : MuxOp
  | reopen : MuxOp
  | write : Pipe → (Nat → List Char) → List Nat → MuxOp

/-- The per-driver sub-operation of a multiplexer operation. -/
def MuxOp.driverStep : MuxOp → LogDriver → LogDriver × Except String Unit
  | MuxOp.init, d => d.init
  | MuxOp.reopen, d => d.reopen
  | MuxOp.write pipe ts bs, d => d.write pipe ts bs

/-- Run a multiplexer operation on the whole driver set. -/
def MuxOp.run : MuxOp → ContainerLog → ContainerLog × Except String Unit
  | MuxOp.init, cl => cl.init
  | MuxOp.reopen, cl => cl.reopen
  | MuxOp.write pipe ts bs, cl => cl.write pipe ts bs

/-- The structured records among a trace, in order. -/
def wroteEntries (evs : List Ev) : List LogEntry :=
  evs.filterMap fun ev => match ev with | Ev.wrote e => some e | _ => none

/-- Number of truncating opens in a trace (each rotation performs one). -/
def countOpened : List Ev → Nat
  | [] => 0
  | Ev.opened :: r => countOpened r + 1
  | _ :: r => countOpened r

/-- The records `write` builds for a list of raw lines, with timestamp
indices starting at `i`. -/
def entriesFrom (pipe : Pipe) (ts : Nat → List Char) (i : Nat) :
    List (List Nat) → List LogEntry
  | [] => []
  | l :: rest => ⟨ts i, pipe, msgOf l⟩ :: entriesFrom pipe ts (i + 1) rest

/-- Total serialized size of a record list. -/
def sizesSum (es : List LogEntry) : Nat := (es.map recSize).sum

/-- Append a whole record list to a writer, in order. -/
def appendRecs : FileSt → List LogEntry → FileSt
  | f, [] => f
  | f, e :: rest => appendRecs (appendRec f e) rest

/-- The byte payload a record list contributes to the file: each serialized
record followed by one newline byte. -/
def recsPayload (es : List LogEntry) : List Nat :=
  es.flatMap fun e => recBytes e ++ [10]

/-- The full byte content currently reachable through the driver's file
handle (buffered plus written-through), empty when uninitialized. -/
def fileContent (st : JsonLogger) : List Nat :=
  match st.file with
  | some f => f.content
  | none => []

/-- Does the stream consist purely of newline-terminated lines? -/
def newlineTerminated (bs : List Nat) : Bool :=
  bs.isEmpty || bs.getLast? == some 10

theorem FileSt.content_writeAll (f : FileSt) (bs : List Nat) :
    (f.writeAll bs).content = f.content ++ bs := by
  simp only [FileSt.writeAll]
  split_ifs <;> simp [FileSt.content]

theorem FileSt.content_appendRec (f : FileSt) (e : LogEntry) :
    (appendRec f e).content = f.content ++ (recBytes e ++ [10]) := by
  unfold appendRec
  rw [FileSt.content_writeAll, FileSt.content_writeAll, List.append_assoc]

theorem FileSt.content_appendRecs (es : List LogEntry) : ∀ f : FileSt,
    (appendRecs f es).content = f.content ++ recsPayload es := by
  induction es with
  | nil => intro f; simp [appendRecs, recsPayload]
  | cons e rest ih =>
    intro f
    simp only [appendRecs, recsPayload, List.flatMap_cons]
    rw [ih, FileSt.content_appendRec, List.append_assoc]
    rfl

theorem wroteEntries_append (xs ys : List Ev) :
    wroteEntries (xs ++ ys) = wroteEntries xs ++ wroteEntries ys := by
  simp [wroteEntries]

theorem countOpened_append (xs ys : List Ev) :
    countOpened (xs ++ ys) = countOpened xs + countOpened ys := by
  induction xs with
  | nil => simp [countOpened]
  | cons x r ih =>
    cases x <;> simp [countOpened, ih] <;> omega

theorem entriesFrom_length (pipe : Pipe) (ts : Nat → List Char) :
    ∀ (lines : List (List Nat)) (i : Nat),
    (entriesFrom pipe ts i lines).length = lines.length := by
  intro lines
  induction lines with
  | nil => intro i; rfl
  | cons l rest ih => intro i; simp [entriesFrom, ih]

theorem entriesFrom_getElem? (pipe : Pipe) (ts : Nat → List Char) :
    ∀ (lines : List (List Nat)) (i n : Nat),
    (entriesFrom pipe ts i lines)[n]? =
      (lines[n]?).map fun l => (⟨ts (i + n), pipe, msgOf l⟩ : LogEntry) := by
  intro lines
  induction lines with
  | nil => intro i n; simp [entriesFrom]
  | cons l rest ih =>
    intro i n
    cases n with
    | zero => simp [entriesFrom]
    | succ n =>
      simp only [entriesFrom, List.getElem?_cons_succ]
      rw [ih (i + 1) n, show i + 1 + n = i + (n + 1) from by omega]

theorem entriesFrom_append (pipe : Pipe) (ts : Nat → List Char) :
    ∀ (xs ys : List (List Nat)) (i : Nat),
    entriesFrom pipe ts i (xs ++ ys) =
      entriesFrom pipe ts i xs ++ entriesFrom pipe ts (i + xs.length) ys := by
  intro xs
  induction xs with
  | nil => intro ys i; rfl
  | cons l rest ih =>
    intro ys i
    simp only [List.cons_append, entriesFrom, List.length_cons, List.append_eq]
    rw [ih ys (i + 1), show i + 1 + rest.length = i + (rest.length + 1) from by omega]

theorem JsonLogger.writeLine_uninit (st : JsonLogger) (pipe : Pipe)
    (ts : List Char) (l : List Nat) (hf : st.file = none) :
    st.writeLine pipe ts l =
      ({ st with bytesWritten := st.bytesWritten + recSize ⟨ts, pipe, msgOf l⟩ },
        Except.error errUninitialized) := by
  simp only [JsonLogger.writeLine]
  cases hm : st.maxLogSize with
  | none => simp [hm, hf]
  | some m =>
    simp only [hm]
    split_ifs with hgt
    · simp [JsonLogger.reopen, hf]
    · simp [hf]

theorem JsonLogger.writeLine_noRot (st : JsonLogger) (pipe : Pipe)
    (ts : List Char) (l : List Nat) (f : FileSt) (hf : st.file = some f)
    (hm : ∀ m, st.maxLogSize = some m →
      st.bytesWritten + recSize ⟨ts, pipe, msgOf l⟩ ≤ m) :
    st.writeLine pipe ts l =
      ({ st with
          file := some (appendRec f ⟨ts, pipe, msgOf l⟩)
          bytesWritten := st.bytesWritten + recSize ⟨ts, pipe, msgOf l⟩
          events := st.events ++ [Ev.wrote ⟨ts, pipe, msgOf l⟩] },
        Except.ok ()) := by
  simp only [JsonLogger.writeLine]
  cases hmax : st.maxLogSize with
  | none => simp [hmax, hf]
  | some m =>
    have hle := hm m hmax
    simp only [hmax]
    split_ifs with hgt
    · omega
    · simp [hf]

theorem JsonLogger.writeLine_cross (st : JsonLogger) (pipe : Pipe)
    (ts : List Char) (l : List Nat) (f : FileSt) (m : Nat)
    (hf : st.file = some f) (hm : st.maxLogSize = some m)
    (hgt : st.bytesWritten + recSize ⟨ts, pipe, msgOf l⟩ > m) :
    st.writeLine pipe ts l =
      ({ st with
          file := some (appendRec emptyFile ⟨ts, pipe, msgOf l⟩)
          bytesWritten := 0
          events := st.events ++
            [Ev.synced f.onDisk, Ev.opened, Ev.wrote ⟨ts, pipe, msgOf l⟩] },
        Except.ok ()) := by
  simp [JsonLogger.writeLine, hm, hgt, JsonLogger.reopen, JsonLogger.init, hf]

theorem JsonLogger.writeLine_ok (st : JsonLogger) (pipe : Pipe)
    (ts : List Char) (l : List Nat) (f : FileSt) (hf : st.file = some f) :
    ∃ (f2 : FileSt) (b : Nat) (delta : List Ev),
      st.writeLine pipe ts l =
        ({ st with
            file := some f2
            bytesWritten := b
            events := st.events ++ delta }, Except.ok ()) ∧
      wroteEntries delta = [⟨ts, pipe, msgOf l⟩] := by
  by_cases hrot : ∃ m, st.maxLogSize = some m ∧
      st.bytesWritten + recSize ⟨ts, pipe, msgOf l⟩ > m
  · obtain ⟨m, hm, hgt⟩ := hrot
    refine ⟨appendRec emptyFile ⟨ts, pipe, msgOf l⟩, 0,
      [Ev.synced f.onDisk, Ev.opened, Ev.wrote ⟨ts, pipe, msgOf l⟩], ?_, ?_⟩
    · exact st.writeLine_cross pipe ts l f m hf hm hgt
    · rfl
  · push_neg at hrot
    refine ⟨appendRec f ⟨ts, pipe, msgOf l⟩,
      st.bytesWritten + recSize ⟨ts, pipe, msgOf l⟩,
      [Ev.wrote ⟨ts, pipe, msgOf l⟩], ?_, rfl⟩
    exact st.writeLine_noRot pipe ts l f hf fun m hm => hrot m hm

theorem JsonLogger.writeLines_ok (pipe : Pipe) (ts : Nat → List Char) :
    ∀ (lines : List (List Nat)) (i : Nat) (st : JsonLogger) (f : FileSt),
    st.file = some f →
    ∃ (f2 : FileSt) (b : Nat) (delta : List Ev),
      st.writeLines pipe ts i lines =
        ({ st with
            file := some f2
            bytesWritten := b
            events := st.events ++ delta }, Except.ok ()) ∧
      wroteEntries delta = entriesFrom pipe ts i lines := by
  intro lines
  induction lines with
  | nil =>
    intro i st f hf
    refine ⟨f, st.bytesWritten, [], ?_, rfl⟩
    simp [JsonLogger.writeLines, ← hf]
  | cons l rest ih =>
    intro i st f hf
    obtain ⟨f2, b, delta, heq, hw⟩ := st.writeLine_ok pipe (ts i) l f hf
    obtain ⟨f3, b3, delta3, heq3, hw3⟩ :=
      ih (i + 1)
        ({ st with
            file := some f2
            bytesWritten := b
            events := st.events ++ delta }) f2 rfl
    refine ⟨f3, b3, delta ++ delta3, ?_, ?_⟩
    · simp only [JsonLogger.writeLines, heq, heq3, List.append_assoc]
    · rw [wroteEntries_append, hw, hw3]
      rfl

theorem JsonLogger.writeLines_noRot (pipe : Pipe) (ts : Nat → List Char) :
    ∀ (lines : List (List Nat)) (i : Nat) (st : JsonLogger) (f : FileSt),
    st.file = some f →
    (∀ m, st.maxLogSize = some m →
      st.bytesWritten + sizesSum (entriesFrom pipe ts i lines) ≤ m) →
    st.writeLines pipe ts i lines =
      ({ st with
          file := some (appendRecs f (entriesFrom pipe ts i lines))
          bytesWritten := st.bytesWritten + sizesSum (entriesFrom pipe ts i lines)
          events := st.events ++ (entriesFrom pipe ts i lines).map Ev.wrote },
        Except.ok ()) := by
  intro lines
  induction lines with
  | nil =>
    intro i st f hf _
    simp [JsonLogger.writeLines, entriesFrom, appendRecs, sizesSum, ← hf]
  | cons l rest ih =>
    intro i st f hf hm
    have hsum : sizesSum (entriesFrom pipe ts i (l :: rest)) =
        recSize ⟨ts i, pipe, msgOf l⟩ +
          sizesSum (entriesFrom pipe ts (i + 1) rest) := by
      simp [entriesFrom, sizesSum]
    have hline := st.writeLine_noRot pipe (ts i) l f hf (fun m h => by
      have := hm m h
      rw [hsum] at this
      omega)
    have hrec := ih (i + 1)
      ({ st with
          file := some (appendRec f ⟨ts i, pipe, msgOf l⟩)
          bytesWritten := st.bytesWritten + recSize ⟨ts i, pipe, msgOf l⟩
          events := st.events ++ [Ev.wrote ⟨ts i, pipe, msgOf l⟩] })
      (appendRec f ⟨ts i, pipe, msgOf l⟩) rfl (fun m h => by
        have := hm m h
        rw [hsum] at this
        simpa using by omega)
    simp only [JsonLogger.writeLines, hline, hrec]
    rw [hsum]
    simp [entriesFrom, appendRecs, Nat.add_assoc, List.append_assoc]

theorem JsonLogger.writeLines_append (pipe : Pipe) (ts : Nat → List Char) :
    ∀ (xs ys : List (List Nat)) (i : Nat) (st : JsonLogger),
    st.writeLines pipe ts i (xs ++ ys) =
      match st.writeLines pipe ts i xs with
      | (st1, Except.error err) => (st1, Except.error err)
      | (st1, Except.ok _) => st1.writeLines pipe ts (i + xs.length) ys := by
  intro xs
  induction xs with
  | nil => intro ys i st; simp [JsonLogger.writeLines]
  | cons l rest ih =>
    intro ys i st
    simp only [List.cons_append, JsonLogger.writeLines]
    cases hstep : st.writeLine pipe (ts i) l with
    | mk st1 r =>
      cases r with
      | error err => rfl
      | ok _ =>
        dsimp only
        simp only [List.append_eq]
        rw [ih ys (i + 1) st1, show i + 1 + rest.length = i + (rest.length + 1)
          from by omega]
        simp [List.length_cons]

theorem splitLinesAux_ne_nil :
    ∀ (bs : List Nat) (acc : List Nat), acc ≠ [] ∨ bs ≠ [] →
    splitLinesAux acc bs ≠ [] := by
  intro bs
  induction bs with
  | nil =>
    intro acc h
    rcases h with h | h
    · simp [splitLinesAux, h]
    · exact absurd rfl h
  | cons b rest ih =>
    intro acc _
    by_cases hb : b = 10
    · simp [splitLinesAux, hb]
    · simpa [splitLinesAux, hb] using ih (b :: acc) (Or.inl (by simp))

theorem splitLines_ne_nil (bs : List Nat) (h : bs ≠ []) : splitLines bs ≠ [] :=
  splitLinesAux_ne_nil bs [] (Or.inr h)

theorem splitLinesAux_no_newline :
    ∀ (r : List Nat) (acc : List Nat), r ≠ [] → (10 : Nat) ∉ r →
    splitLinesAux acc r = [acc.reverse ++ r] := by
  intro r
  induction r with
  | nil => intro acc h _; exact absurd rfl h
  | cons b rest ih =>
    intro acc _ hmem
    have hb : b ≠ 10 := fun hb => hmem (by simp [hb])
    have hrest : (10 : Nat) ∉ rest := fun hx => hmem (by simp [hx])
    cases hre : rest with
    | nil => simp [splitLinesAux, hb, hre]
    | cons c rest2 =>
      rw [splitLinesAux, if_neg hb, ← hre, ih (b :: acc) (by simp [hre]) hrest]
      simp

theorem splitLinesAux_cons (acc : List Nat) (b : Nat) (bs : List Nat) :
    splitLinesAux acc (b :: bs) =
      if b = 10 then (acc.reverse ++ [10]) :: splitLinesAux [] bs
      else splitLinesAux (b :: acc) bs := rfl

theorem splitLinesAux_append_terminated :
    ∀ (core : List Nat) (rest : List Nat) (acc : List Nat),
    core.getLast? = some 10 →
    splitLinesAux acc (core ++ rest) =
      splitLinesAux acc core ++ splitLinesAux [] rest := by
  intro core
  induction core with
  | nil => intro rest acc h; simp at h
  | cons b core2 ih =>
    intro rest acc hlast
    by_cases hnil : core2 = []
    · subst hnil
      have hb : b = 10 := by simpa using hlast
      subst hb
      simp [splitLinesAux]
    · have hlast2 : core2.getLast? = some 10 := by
        cases core2 with
        | nil => exact absurd rfl hnil
        | cons c core3 =>
          rw [List.getLast?_cons_cons] at hlast
          exact hlast
      by_cases hb : b = 10
      · subst hb
        rw [List.cons_append, splitLinesAux_cons, splitLinesAux_cons,
          if_pos rfl, if_pos rfl, ih rest [] hlast2, List.cons_append]
      · rw [List.cons_append, splitLinesAux_cons, splitLinesAux_cons,
          if_neg hb, if_neg hb, ih rest (b :: acc) hlast2]

theorem hexDigit_ne_ten : ∀ m, m < 16 → (hexDigit m).toNat ≠ 10 := by decide

theorem escChar_no_newline (a : Char) : ∀ x ∈ escChar a, x.toNat ≠ 10 := by
  intro x hx
  unfold escChar at hx
  split_ifs at hx with h1 h2 h3 h4 h5 h6 h7 h8
  · simp at hx; rcases hx with rfl | rfl <;> decide
  · simp at hx; rcases hx with rfl | rfl <;> decide
  · simp at hx; rcases hx with rfl | rfl <;> decide
  · simp at hx; rcases hx with rfl | rfl <;> decide
  · simp at hx; rcases hx with rfl | rfl <;> decide
  · simp at hx; rcases hx with rfl | rfl <;> decide
  · simp at hx; rcases hx with rfl | rfl <;> decide
  · simp at hx
    rcases hx with rfl | rfl | rfl | h | h
    · decide
    · decide
    · decide
    · rw [h]; exact hexDigit_ne_ten _ (by omega)
    · rw [h]; exact hexDigit_ne_ten _ (by omega)
  · simp at hx
    subst hx
    omega

theorem jsonQuote_no_newline (s : List Char) : ∀ x ∈ jsonQuote s, x.toNat ≠ 10 := by
  intro x hx
  rcases List.mem_cons.1 hx with rfl | hx2
  · decide
  · rcases List.mem_append.1 hx2 with hx3 | hx3
    · obtain ⟨a, _, hxa⟩ := List.mem_flatMap.1 hx3
      exact escChar_no_newline a x hxa
    · have hxq := List.mem_singleton.1 hx3
      subst hxq
      decide

theorem serializeEntry_no_newline (e : LogEntry) :
    ∀ x ∈ serializeEntry e, x.toNat ≠ 10 := by
  simp only [serializeEntry, List.forall_mem_cons, List.forall_mem_append,
    List.forall_mem_singleton]
  repeat' constructor
  all_goals first
    | decide
    | exact fun x hx => jsonQuote_no_newline _ x hx
    | simp

theorem utf8EncodeChar_ten (c : Char) (h : (10 : Nat) ∈ utf8EncodeChar c) :
    c.toNat = 10 := by
  simp only [utf8EncodeChar] at h
  split_ifs at h with h1 h2 h3 <;> simp at h <;> omega

theorem recBytes_no_ten (e : LogEntry) : (10 : Nat) ∉ recBytes e := by
  intro h
  simp only [recBytes, utf8Encode] at h
  obtain ⟨c, hc, hmem⟩ := List.mem_flatMap.1 h
  exact serializeEntry_no_newline e c hc (utf8EncodeChar_ten c hmem)

theorem JsonLogger.reopen_bytesWritten (st : JsonLogger) :
    (st.reopen).1.bytesWritten = st.bytesWritten := by
  unfold JsonLogger.reopen
  cases st.file <;> simp [JsonLogger.init]

theorem JsonLogger.writeLine_none (st : JsonLogger) (pipe : Pipe)
    (ts : List Char) (l : List Nat) (hm : st.maxLogSize = none) :
    countOpened (st.writeLine pipe ts l).1.events = countOpened st.events ∧
    (st.writeLine pipe ts l).1.maxLogSize = none := by
  cases hf : st.file with
  | none =>
    rw [st.writeLine_uninit pipe ts l hf]
    exact ⟨rfl, hm⟩
  | some f =>
    rw [st.writeLine_noRot pipe ts l f hf (fun m h => by rw [hm] at h; cases h)]
    refine ⟨?_, hm⟩
    simp [countOpened_append, countOpened]

theorem JsonLogger.writeLines_none_noOpen (pipe : Pipe) (ts : Nat → List Char) :
    ∀ (lines : List (List Nat)) (i : Nat) (st : JsonLogger),
    st.maxLogSize = none →
    countOpened (st.writeLines pipe ts i lines).1.events =
      countOpened st.events := by
  intro lines
  induction lines with
  | nil => intro i st _; rfl
  | cons l rest ih =>
    intro i st hm
    obtain ⟨hcount, hmax⟩ := st.writeLine_none pipe (ts i) l hm
    simp only [JsonLogger.writeLines]
    cases hstep : st.writeLine pipe (ts i) l with
    | mk st1 r =>
      rw [hstep] at hcount hmax
      cases r with
      | error err => exact hcount
      | ok _ => rw [ih (i + 1) st1 hmax, hcount]

theorem countOpened_map_wrote (es : List LogEntry) :
    countOpened (es.map Ev.wrote) = 0 := by
  induction es with
  | nil => rfl
  | cons e rest ih => simpa [countOpened] using ih

theorem wroteEntries_map_wrote (es : List LogEntry) :
    wroteEntries (es.map Ev.wrote) = es := by
  induction es with
  | nil => rfl
  | cons e rest ih => simpa [wroteEntries] using ih

theorem recSize_pos (e : LogEntry) : 0 < recSize e := by
  rw [recSize, List.length_pos]
  intro hnil
  rw [recBytes, utf8Encode, List.flatMap_eq_nil_iff] at hnil
  have hmem : lbraceChar ∈ serializeEntry e := by
    simp only [serializeEntry]
    exact List.mem_cons_self _ _
  exact absurd (hnil lbraceChar hmem) (by decide)

theorem collectResults_all_ok (rs : List (Except String Unit))
    (h : ∀ r ∈ rs, r = Except.ok ()) : collectResults rs = Except.ok () := by
  induction rs with
  | nil => rfl
  | cons r rest ih =>
    have hr := h r (by simp)
    subst hr
    exact ih fun r2 h2 => h r2 (by simp [h2])

theorem collectResults_first_error (rs1 rs2 : List (Except String Unit))
    (err : String) (h : ∀ r ∈ rs1, r = Except.ok ()) :
    collectResults (rs1 ++ Except.error err :: rs2) = Except.error err := by
  induction rs1 with
  | nil => rfl
  | cons r rest ih =>
    have hr := h r (by simp)
    subst hr
    exact ih fun r2 h2 => h r2 (by simp [h2])

theorem fanOutSpec (g : LogDriver → LogDriver × Except String Unit)
    (ds : List LogDriver) :
    ((ds.map g).map Prod.fst = ds.map fun d => (g d).1) ∧
    ((∀ d ∈ ds, (g d).2 = Except.ok ()) →
      collectResults ((ds.map g).map Prod.snd) = Except.ok ()) ∧
    (∀ (pre post : List LogDriver) (d : LogDriver) (err : String),
      ds = pre ++ d :: post →
      (∀ d2 ∈ pre, (g d2).2 = Except.ok ()) →
      (g d).2 = Except.error err →
      collectResults ((ds.map g).map Prod.snd) = Except.error err) := by
  refine ⟨by simp, ?_, ?_⟩
  · intro h
    refine collectResults_all_ok _ ?_
    intro r hr
    simp only [List.map_map, List.mem_map] at hr
    obtain ⟨d, hd, hrd⟩ := hr
    rw [← hrd]
    exact h d hd
  · intro pre post d err hds hpre herr
    subst hds
    rw [List.map_append, List.map_append, List.map_cons, List.map_cons, herr]
    refine collectResults_first_error _ _ _ ?_
    intro r hr
    simp only [List.map_map, List.mem_map] at hr
    obtain ⟨d2, hd2, hrd⟩ := hr
    rw [← hrd]
    exact hpre d2 hd2

/-- Constant empty-timestamp oracle used in concrete scenarios. -/
def tsN : Nat → List Char := fun _ => []

/-- The record built for the line `"a\n"` under the empty-timestamp oracle. -/
def eA : LogEntry := ⟨[], Pipe.stdOut, ['a']⟩

/-- The serialized size of that record. -/
def szA : Nat := recSize eA

/-- A freshly initialized JSON driver with rotation disabled. -/
def stNoLimit : JsonLogger := (JsonLogger.new [] none).init.1

/-- A JSON driver that was never initialized. -/
def stU : JsonLogger := JsonLogger.new [] none

/-- C10: calling write on an uninitialized JSON driver with a stream holding
at least one line fails with the uninitialized error only after bytes_written
has been incremented by the serialized size of the first record, so the
failing call does not leave the logger unchanged. -/
theorem c10_uninit_write_mutates_counter (st : JsonLogger) (pipe : Pipe)
    (ts : Nat → List Char) (bs : List Nat) (l : List Nat)
    (rest : List (List Nat)) (hf : st.file = none)
    (hsplit : splitLines bs = l :: rest) :
    st.write pipe ts bs =
      ({ st with bytesWritten :=
          st.bytesWritten + recSize ⟨ts 0, pipe, msgOf l⟩ },
        Except.error errUninitialized) ∧
    0 < recSize ⟨ts 0, pipe, msgOf l⟩ := by
  refine ⟨?_, recSize_pos _⟩
  rw [JsonLogger.write, hsplit]
  simp only [JsonLogger.writeLines, st.writeLine_uninit pipe (ts 0) l hf]

theorem c10_uninit_write_mutates_counter_witness :
    (stU.file = none ∧ splitLines [97, 10] = [[97, 10]]) ∧
    (stU.write Pipe.stdOut tsN [97, 10] =
      ({ stU with bytesWritten := stU.bytesWritten + recSize ⟨tsN 0, Pipe.stdOut, msgOf [97, 10]⟩ },
        Except.error errUninitialized) ∧
      0 < recSize ⟨tsN 0, Pipe.stdOut, msgOf [97, 10]⟩) :=
  ⟨⟨rfl, rfl⟩,
    c10_uninit_write_mutates_counter stU Pipe.stdOut tsN
      [97, 10] [97, 10] [] rfl rfl⟩

/-- C3 counterexample: a write call on a never-initialized driver whose
stream is empty succeeds instead of failing with the uninitialized error, so
not every write before init fails. -/
theorem c3_counterexample_empty_write_ok :
    ((JsonLogger.new [] none).write Pipe.stdOut tsN []).2 = Except.ok () ∧
    ((JsonLogger.new [] none).write Pipe.stdOut tsN []).1 =
      JsonLogger.new [] none :=
  ⟨rfl, rfl⟩

/-- C3 (amended): while the driver is uninitialized, flush always fails with
the uninitialized error and changes nothing; write fails with the
uninitialized error whenever the stream holds at least one byte, touching no
file state and recording no filesystem action; write on an empty stream
returns success and leaves the state unchanged. -/
theorem c3_uninitialized_ops (st : JsonLogger) (pipe : Pipe)
    (ts : Nat → List Char) (bs : List Nat) (hf : st.file = none) :
    ((st.flush).2 = Except.error errUninitialized ∧ (st.flush).1 = st) ∧
    (bs ≠ [] →
      (st.write pipe ts bs).2 = Except.error errUninitialized ∧
      (st.write pipe ts bs).1.events = st.events ∧
      (st.write pipe ts bs).1.file = none) ∧
    (bs = [] → st.write pipe ts bs = (st, Except.ok ())) := by
  refine ⟨?_, ?_, ?_⟩
  · rw [JsonLogger.flush, hf]
    exact ⟨rfl, rfl⟩
  · intro hbs
    have hne := splitLines_ne_nil bs hbs
    cases hsplit : splitLines bs with
    | nil => exact absurd hsplit hne
    | cons l rest =>
      rw [JsonLogger.write, hsplit]
      simp only [JsonLogger.writeLines, st.writeLine_uninit pipe (ts 0) l hf]
      simp [hf]
  · intro hbs
    subst hbs
    rfl

theorem c3_uninitialized_ops_witness :
    (stU.file = none ∧ ([97] : List Nat) ≠ []) ∧
    (((stU.flush).2 = Except.error errUninitialized ∧ (stU.flush).1 = stU) ∧
     ((stU.write Pipe.stdOut tsN [97]).2 = Except.error errUninitialized ∧
      (stU.write Pipe.stdOut tsN [97]).1.events = stU.events ∧
      (stU.write Pipe.stdOut tsN [97]).1.file = none)) :=
  ⟨⟨rfl, by decide⟩,
    ⟨(c3_uninitialized_ops stU Pipe.stdOut tsN [97] rfl).1,
      (c3_uninitialized_ops stU Pipe.stdOut tsN [97] rfl).2.1 (by decide)⟩⟩

/-- A freshly initialized JSON driver with a one-byte size threshold. -/
def stM : JsonLogger := (JsonLogger.new [] (some 1)).init.1

/-- The state of a no-limit driver after writing the single line `"a\n"`. -/
def c2St : JsonLogger := (stNoLimit.write Pipe.stdOut tsN [97, 10]).1

/-- C2 counterexample: a driver that has written one record has a nonzero
bytes_written; an externally invoked reopen completes successfully yet leaves
the counter at its old nonzero value, so bytes_written is not zero after
every completed reopen. -/
theorem c2_counterexample_reopen_keeps_counter :
    (c2St.reopen).2 = Except.ok () ∧
    c2St.bytesWritten = szA ∧ szA ≠ 0 ∧
    (c2St.reopen).1.bytesWritten = szA ∧
    (c2St.reopen).1.bytesWritten ≠ 0 :=
  ⟨rfl, rfl, by decide, rfl, by decide⟩

/-- C2 (amended): bytes_written is monotonically non-decreasing between
rotations — a line processed without triggering the size check adds exactly
its serialized size — and it is reset to zero exactly when the internal
size-check rotation inside write completes; an externally invoked reopen
leaves bytes_written unchanged. -/
theorem c2_counter_discipline (st : JsonLogger) (pipe : Pipe) (ts : List Char)
    (l : List Nat) (m : Nat) (f : FileSt) :
    ((st.reopen).1.bytesWritten = st.bytesWritten) ∧
    (st.file = some f → st.maxLogSize = some m →
      st.bytesWritten + recSize ⟨ts, pipe, msgOf l⟩ > m →
      (st.writeLine pipe ts l).1.bytesWritten = 0) ∧
    ((∀ m2, st.maxLogSize = some m2 →
        st.bytesWritten + recSize ⟨ts, pipe, msgOf l⟩ ≤ m2) →
      (st.writeLine pipe ts l).1.bytesWritten =
        st.bytesWritten + recSize ⟨ts, pipe, msgOf l⟩) := by
  refine ⟨st.reopen_bytesWritten, ?_, ?_⟩
  · intro hf hm hgt
    rw [st.writeLine_cross pipe ts l f m hf hm hgt]
  · intro hm2
    cases hfe : st.file with
    | none => rw [st.writeLine_uninit pipe ts l hfe]
    | some f2 => rw [st.writeLine_noRot pipe ts l f2 hfe hm2]

theorem c2_counter_discipline_witness :
    (stM.file = some emptyFile ∧ stM.maxLogSize = some 1 ∧
      stM.bytesWritten + recSize ⟨[], Pipe.stdOut, msgOf [97, 10]⟩ > 1) ∧
    ((stM.reopen).1.bytesWritten = stM.bytesWritten ∧
      (stM.writeLine Pipe.stdOut [] [97, 10]).1.bytesWritten = 0) :=
  ⟨⟨rfl, rfl, by decide⟩,
    ⟨(c2_counter_discipline stM Pipe.stdOut [] [97, 10] 1 emptyFile).1,
      (c2_counter_discipline stM Pipe.stdOut [] [97, 10] 1 emptyFile).2.1
        rfl rfl (by decide)⟩⟩

/-- The state of the no-limit driver after writing one line: the serialized
record sits entirely in the writer buffer, nothing has reached the OS file. -/
def c7St : JsonLogger := (stNoLimit.write Pipe.stdOut tsN [97, 10]).1

/-- C7 counterexample: after one small write the record bytes are still
buffered in the writer (`buf` nonempty, `onDisk` empty); reopen succeeds but
its sync durably persists the empty on-disk content, not the buffered
record, and the subsequent truncating open discards the buffer — so reopen
does not flush-and-sync bytes buffered in the writer. -/
theorem c7_counterexample_buffer_not_synced :
    (c7St.reopen).2 = Except.ok () ∧
    c7St.file = some ⟨[], recBytes eA ++ [10]⟩ ∧
    recBytes eA ++ [10] ≠ [] ∧
    (c7St.reopen).1.events = [Ev.opened, Ev.wrote eA, Ev.synced [], Ev.opened] ∧
    (c7St.reopen).1.file = some emptyFile :=
  ⟨rfl, rfl, by decide, rfl, rfl⟩

/-- C7 (amended): reopen on an initialized driver durably syncs exactly the
bytes already written through to the underlying file — not the bytes still
sitting in the writer buffer, which the subsequent replacement discards —
and then performs the same file-replacement logic as init: a truncating
open installing a fresh empty buffered writer, with bytes_written and the
rest of the state untouched. -/
theorem c7_reopen_syncs_disk_then_reinit (st : JsonLogger) (f : FileSt)
    (hf : st.file = some f) :
    st.reopen =
      ({ st with
          file := some emptyFile
          events := st.events ++ [Ev.synced f.onDisk, Ev.opened] },
        Except.ok ()) := by
  simp only [JsonLogger.reopen, hf, JsonLogger.init]
  simp

theorem c7_reopen_syncs_disk_then_reinit_witness :
    (c7St.file = some ⟨[], recBytes eA ++ [10]⟩) ∧
    c7St.reopen =
      ({ c7St with
          file := some emptyFile
          events := c7St.events ++
            [Ev.synced (FileSt.mk [] (recBytes eA ++ [10])).onDisk, Ev.opened] },
        Except.ok ()) :=
  ⟨rfl, c7_reopen_syncs_disk_then_reinit c7St ⟨[], recBytes eA ++ [10]⟩ rfl⟩

/-- C5 counterexample: writing the two bytes "ab", not terminated by any
newline, to a freshly initialized driver emits one JSON record for them in
that same write call (message "ab"), instead of leaving them buffered with
no record persisted. -/
theorem c5_counterexample_trailing_emitted :
    ((stNoLimit.write Pipe.stdOut tsN [97, 98]).2 = Except.ok ()) ∧
    wroteEntries ((stNoLimit.write Pipe.stdOut tsN [97, 98]).1.events) =
      [⟨[], Pipe.stdOut, ['a', 'b']⟩] :=
  ⟨rfl, rfl⟩

/-- C5 (amended): trailing bytes not terminated by a newline are not
buffered: `read_until` returns them at end of stream and the write call
emits a final JSON record for them — after the records for the complete
lines, one record whose message is the decoded and trimmed trailing
segment.  Nothing is retained inside the logger between write calls. -/
theorem c5_trailing_bytes_recorded (st : JsonLogger) (pipe : Pipe)
    (ts : Nat → List Char) (core r : List Nat) (f : FileSt)
    (hf : st.file = some f) (hcore : core = [] ∨ core.getLast? = some 10)
    (hr : r ≠ []) (hnr : (10 : Nat) ∉ r) :
    splitLines (core ++ r) = splitLines core ++ [r] ∧
    (st.write pipe ts (core ++ r)).2 = Except.ok () ∧
    wroteEntries
        ((st.write pipe ts (core ++ r)).1.events.drop st.events.length) =
      entriesFrom pipe ts 0 (splitLines core) ++
        [⟨ts (splitLines core).length, pipe, msgOf r⟩] := by
  have hsplit : splitLines (core ++ r) = splitLines core ++ [r] := by
    rcases hcore with hcore | hcore
    · subst hcore
      rw [splitLines, splitLines, List.nil_append,
        splitLinesAux_no_newline r [] hr hnr]
      rfl
    · rw [splitLines, splitLinesAux_append_terminated core r [] hcore,
        splitLinesAux_no_newline r [] hr hnr]
      rfl
  refine ⟨hsplit, ?_, ?_⟩
  · obtain ⟨f2, b, delta, heq, _⟩ :=
      JsonLogger.writeLines_ok pipe ts (splitLines (core ++ r)) 0 st f hf
    rw [JsonLogger.write, heq]
  · obtain ⟨f2, b, delta, heq, hw⟩ :=
      JsonLogger.writeLines_ok pipe ts (splitLines (core ++ r)) 0 st f hf
    rw [JsonLogger.write, heq]
    simp only [List.drop_left]
    rw [hw, hsplit, entriesFrom_append]
    simp [entriesFrom]

theorem c5_trailing_bytes_recorded_witness :
    (stNoLimit.file = some emptyFile ∧
      (([97, 10] : List Nat) = [] ∨ ([97, 10] : List Nat).getLast? = some 10) ∧
      ([98] : List Nat) ≠ [] ∧ (10 : Nat) ∉ ([98] : List Nat)) ∧
    (splitLines ([97, 10] ++ [98]) = splitLines [97, 10] ++ [[98]] ∧
     (stNoLimit.write Pipe.stdOut tsN ([97, 10] ++ [98])).2 = Except.ok () ∧
     wroteEntries ((stNoLimit.write Pipe.stdOut tsN
         ([97, 10] ++ [98])).1.events.drop stNoLimit.events.length) =
       entriesFrom Pipe.stdOut tsN 0 (splitLines [97, 10]) ++
         [⟨tsN (splitLines [97, 10]).length, Pipe.stdOut, msgOf [98]⟩]) :=
  ⟨⟨rfl, Or.inr (by decide), by decide, by decide⟩,
    c5_trailing_bytes_recorded stNoLimit Pipe.stdOut tsN [97, 10] [98]
      emptyFile rfl (Or.inr (by decide)) (by decide) (by decide)⟩

/-- C4: on an initialized JSON driver, one write call over k
newline-terminated lines succeeds and appends exactly k JSON records in
order: the i-th record carries the call's pipe argument and, as message, the
i-th line decoded as UTF-8 with replacement and trimmed; serialized records
contain no newline byte and each is written followed by one newline byte, so
each record sits on its own line (the file-byte equation is stated for calls
in which the size check does not trigger). -/
theorem c4_write_k_records (st : JsonLogger) (pipe : Pipe)
    (ts : Nat → List Char) (bs : List Nat) (f : FileSt)
    (hf : st.file = some f) (hterm : newlineTerminated bs = true) :
    (st.write pipe ts bs).2 = Except.ok () ∧
    wroteEntries ((st.write pipe ts bs).1.events.drop st.events.length) =
      entriesFrom pipe ts 0 (splitLines bs) ∧
    (entriesFrom pipe ts 0 (splitLines bs)).length = (splitLines bs).length ∧
    (∀ n : Nat, (entriesFrom pipe ts 0 (splitLines bs))[n]? =
      ((splitLines bs)[n]?).map fun l => (⟨ts n, pipe, msgOf l⟩ : LogEntry)) ∧
    (∀ e ∈ entriesFrom pipe ts 0 (splitLines bs), (10 : Nat) ∉ recBytes e) ∧
    ((∀ m, st.maxLogSize = some m →
        st.bytesWritten + sizesSum (entriesFrom pipe ts 0 (splitLines bs)) ≤ m) →
      fileContent (st.write pipe ts bs).1 =
        fileContent st ++ recsPayload (entriesFrom pipe ts 0 (splitLines bs))) := by
  obtain ⟨f2, b, delta, heq, hw⟩ :=
    JsonLogger.writeLines_ok pipe ts (splitLines bs) 0 st f hf
  refine ⟨?_, ?_, entriesFrom_length pipe ts (splitLines bs) 0, ?_, ?_, ?_⟩
  · rw [JsonLogger.write, heq]
  · rw [JsonLogger.write, heq]
    simp only [List.drop_left]
    exact hw
  · intro n
    simpa using entriesFrom_getElem? pipe ts (splitLines bs) 0 n
  · exact fun e _ => recBytes_no_ten e
  · intro hm
    rw [JsonLogger.write,
      JsonLogger.writeLines_noRot pipe ts (splitLines bs) 0 st f hf hm]
    simp [fileContent, hf, FileSt.content_appendRecs]

theorem c4_write_k_records_witness :
    (stNoLimit.file = some emptyFile ∧
      newlineTerminated [97, 10, 98, 10] = true) ∧
    ((stNoLimit.write Pipe.stdOut tsN [97, 10, 98, 10]).2 = Except.ok () ∧
     wroteEntries ((stNoLimit.write Pipe.stdOut tsN
         [97, 10, 98, 10]).1.events.drop stNoLimit.events.length) =
       entriesFrom Pipe.stdOut tsN 0 (splitLines [97, 10, 98, 10]) ∧
     (entriesFrom Pipe.stdOut tsN 0 (splitLines [97, 10, 98, 10])).length =
       (splitLines [97, 10, 98, 10]).length) :=
  ⟨⟨rfl, by decide⟩,
    ⟨(c4_write_k_records stNoLimit Pipe.stdOut tsN [97, 10, 98, 10]
        emptyFile rfl (by decide)).1,
      (c4_write_k_records stNoLimit Pipe.stdOut tsN [97, 10, 98, 10]
        emptyFile rfl (by decide)).2.1,
      (c4_write_k_records stNoLimit Pipe.stdOut tsN [97, 10, 98, 10]
        emptyFile rfl (by decide)).2.2.1⟩⟩

/-- C1 counterexample: threshold 1, two lines "a\na\n", the cumulative
serialized size first exceeds the threshold already at the first line — yet
the single write call truncates the file twice (two rotations), not exactly
once. -/
theorem c1_counterexample_two_rotations :
    ((stM.write Pipe.stdOut tsN [97, 10, 97, 10]).2 = Except.ok ()) ∧
    splitLines [97, 10, 97, 10] = [[97, 10], [97, 10]] ∧
    szA > 1 ∧
    countOpened (((stM.write Pipe.stdOut tsN
        [97, 10, 97, 10]).1.events).drop 1) = 2 ∧
    countOpened (((stM.write Pipe.stdOut tsN
        [97, 10, 97, 10]).1.events).drop 1) ≠ 1 :=
  ⟨rfl, rfl, by decide, by decide, by decide⟩

/-- C1 (amended): when the cumulative serialized size first exceeds the
threshold at line j (counting from a zero counter), the prefix of the write
call through line j performs exactly one rotation: lines before j are
appended without any truncation, then the file is synced and truncated once,
line j's record is the first and only record of the fresh file, the counter
is back to zero (line j's size is not counted), and the remaining lines are
processed from that state — later lines may trigger further rotations of
their own. -/
theorem c1_rotation_at_crossing (st : JsonLogger) (pipe : Pipe)
    (ts : Nat → List Char) (bs : List Nat) (f : FileSt) (m j : Nat)
    (hf : st.file = some f) (hm : st.maxLogSize = some m)
    (hb : st.bytesWritten = 0) (hterm : newlineTerminated bs = true)
    (hj : j < (splitLines bs).length)
    (hpre : sizesSum (entriesFrom pipe ts 0 ((splitLines bs).take j)) ≤ m)
    (hcross : sizesSum (entriesFrom pipe ts 0 ((splitLines bs).take j)) +
      recSize ⟨ts j, pipe, msgOf (splitLines bs)[j]⟩ > m) :
    (st.writeLines pipe ts 0 ((splitLines bs).take (j + 1))).2 =
      Except.ok () ∧
    (st.writeLines pipe ts 0 ((splitLines bs).take (j + 1))).1.events =
      st.events ++
        (entriesFrom pipe ts 0 ((splitLines bs).take j)).map Ev.wrote ++
        [Ev.synced (appendRecs f
            (entriesFrom pipe ts 0 ((splitLines bs).take j))).onDisk,
          Ev.opened, Ev.wrote ⟨ts j, pipe, msgOf (splitLines bs)[j]⟩] ∧
    countOpened ((st.writeLines pipe ts 0
        ((splitLines bs).take (j + 1))).1.events.drop st.events.length) = 1 ∧
    (st.writeLines pipe ts 0 ((splitLines bs).take (j + 1))).1.file =
      some (appendRec emptyFile ⟨ts j, pipe, msgOf (splitLines bs)[j]⟩) ∧
    (st.writeLines pipe ts 0
      ((splitLines bs).take (j + 1))).1.bytesWritten = 0 ∧
    st.write pipe ts bs =
      (st.writeLines pipe ts 0 ((splitLines bs).take (j + 1))).1.writeLines
        pipe ts (j + 1) ((splitLines bs).drop (j + 1)) := by
  have hlenTake : ((splitLines bs).take j).length = j := by
    rw [List.length_take]
    omega
  have hlenTake1 : ((splitLines bs).take (j + 1)).length = j + 1 := by
    rw [List.length_take]
    omega
  have htake1 : (splitLines bs).take (j + 1) =
      (splitLines bs).take j ++ [(splitLines bs)[j]] :=
    (List.take_concat_get' (splitLines bs) j hj).symm
  have hA := JsonLogger.writeLines_noRot pipe ts ((splitLines bs).take j) 0
    st f hf (by
      intro m2 hm2
      rw [hm] at hm2
      cases hm2
      omega)
  have hgt2 : st.bytesWritten +
      sizesSum (entriesFrom pipe ts 0 ((splitLines bs).take j)) +
      recSize ⟨ts j, pipe, msgOf (splitLines bs)[j]⟩ > m := by
    rw [hb]
    omega
  have hB := JsonLogger.writeLine_cross
    ({ st with
        file := some (appendRecs f
          (entriesFrom pipe ts 0 ((splitLines bs).take j)))
        bytesWritten := st.bytesWritten +
          sizesSum (entriesFrom pipe ts 0 ((splitLines bs).take j))
        events := st.events ++
          (entriesFrom pipe ts 0 ((splitLines bs).take j)).map Ev.wrote })
    pipe (ts j) (splitLines bs)[j]
    (appendRecs f (entriesFrom pipe ts 0 ((splitLines bs).take j))) m
    rfl hm hgt2
  have hmid : st.writeLines pipe ts 0 ((splitLines bs).take (j + 1)) =
      ({ st with
          file := some (appendRec emptyFile
            ⟨ts j, pipe, msgOf (splitLines bs)[j]⟩)
          bytesWritten := 0
          events := st.events ++
            (entriesFrom pipe ts 0 ((splitLines bs).take j)).map Ev.wrote ++
            [Ev.synced (appendRecs f
                (entriesFrom pipe ts 0 ((splitLines bs).take j))).onDisk,
              Ev.opened,
              Ev.wrote ⟨ts j, pipe, msgOf (splitLines bs)[j]⟩] },
        Except.ok ()) := by
    rw [htake1, JsonLogger.writeLines_append pipe ts _ _ 0 st, hA]
    dsimp only
    rw [Nat.zero_add, hlenTake]
    simp only [JsonLogger.writeLines, hB]
  refine ⟨by rw [hmid], by rw [hmid], ?_, by rw [hmid], by rw [hmid], ?_⟩
  · rw [hmid]
    dsimp only
    rw [List.append_assoc, List.drop_left, countOpened_append,
      countOpened_map_wrote]
    rfl
  · conv_lhs =>
      rw [JsonLogger.write, ← List.take_append_drop (j + 1) (splitLines bs)]
    rw [JsonLogger.writeLines_append pipe ts _ _ 0 st, hmid]
    dsimp only
    rw [Nat.zero_add, hlenTake1]

/-- A freshly initialized JSON driver whose threshold equals exactly one
serialized record. -/
def stM2 : JsonLogger := (JsonLogger.new [] (some szA)).init.1

theorem c1_rotation_at_crossing_witness :
    (stM2.file = some emptyFile ∧ stM2.maxLogSize = some szA ∧
      stM2.bytesWritten = 0 ∧ newlineTerminated [97, 10, 97, 10] = true ∧
      1 < (splitLines [97, 10, 97, 10]).length ∧
      sizesSum (entriesFrom Pipe.stdOut tsN 0
        ((splitLines [97, 10, 97, 10]).take 1)) ≤ szA) ∧
    ((stM2.writeLines Pipe.stdOut tsN 0
        ((splitLines [97, 10, 97, 10]).take 2)).2 = Except.ok () ∧
     countOpened ((stM2.writeLines Pipe.stdOut tsN 0
        ((splitLines [97, 10, 97, 10]).take 2)).1.events.drop
          stM2.events.length) = 1 ∧
     (stM2.writeLines Pipe.stdOut tsN 0
        ((splitLines [97, 10, 97, 10]).take 2)).1.bytesWritten = 0) :=
  ⟨⟨rfl, rfl, rfl, by decide, by decide, by decide⟩,
    ⟨(c1_rotation_at_crossing stM2 Pipe.stdOut tsN [97, 10, 97, 10]
        emptyFile szA 1 rfl rfl rfl (by decide) (by decide) (by decide)
        (by decide)).1,
      (c1_rotation_at_crossing stM2 Pipe.stdOut tsN [97, 10, 97, 10]
        emptyFile szA 1 rfl rfl rfl (by decide) (by decide) (by decide)
        (by decide)).2.2.1,
      (c1_rotation_at_crossing stM2 Pipe.stdOut tsN [97, 10, 97, 10]
        emptyFile szA 1 rfl rfl rfl (by decide) (by decide) (by decide)
        (by decide)).2.2.2.2.1⟩⟩

/-- C9: a configuration entry with max_size zero constructs a driver with no
size limit — and a JSON driver without a size limit never performs a
truncating open during write — while any nonzero max_size becomes exactly
that byte threshold; construction itself is a pure per-entry mapping. -/
theorem c9_max_size_mapping (cfgs : List LogConfig) (cfg : LogConfig)
    (pipe : Pipe) (ts : Nat → List Char) (bs : List Nat) (st : JsonLogger)
    (n : Nat) :
    ((ContainerLog.from cfgs).drivers[n]? = (cfgs[n]?).map mkDriver) ∧
    (cfg.maxSize = 0 → (mkDriver cfg).maxSizeOf = none) ∧
    (cfg.maxSize ≠ 0 → (mkDriver cfg).maxSizeOf = some cfg.maxSize) ∧
    (st.maxLogSize = none →
      countOpened (st.write pipe ts bs).1.events = countOpened st.events) := by
  refine ⟨?_, ?_, ?_, ?_⟩
  · simp [ContainerLog.from]
  · intro h
    cases hcfg : cfg.typ <;>
      simp [mkDriver, hcfg, h, LogDriver.maxSizeOf, CriLogger.new,
        JsonLogger.new]
  · intro h
    cases hcfg : cfg.typ <;>
      simp [mkDriver, hcfg, Nat.pos_of_ne_zero h, LogDriver.maxSizeOf,
        CriLogger.new, JsonLogger.new]
  · intro h
    exact JsonLogger.writeLines_none_noOpen pipe ts (splitLines bs) 0 st h

theorem c9_max_size_mapping_witness :
    ((LogConfig.mk DriverType.json [] 0).maxSize = 0 ∧
      (LogConfig.mk DriverType.json [] 7).maxSize ≠ 0 ∧
      stNoLimit.maxLogSize = none) ∧
    ((ContainerLog.from [LogConfig.mk DriverType.json [] 0]).drivers[0]? =
      ([LogConfig.mk DriverType.json [] 0][0]?).map mkDriver ∧
     (mkDriver (LogConfig.mk DriverType.json [] 0)).maxSizeOf = none ∧
     (mkDriver (LogConfig.mk DriverType.json [] 7)).maxSizeOf = some 7 ∧
     countOpened (stNoLimit.write Pipe.stdOut tsN [97, 10]).1.events =
       countOpened stNoLimit.events) :=
  ⟨⟨rfl, by decide, rfl⟩,
    ⟨(c9_max_size_mapping [LogConfig.mk DriverType.json [] 0]
        (LogConfig.mk DriverType.json [] 0) Pipe.stdOut tsN [97, 10]
        stNoLimit 0).1,
      (c9_max_size_mapping [] (LogConfig.mk DriverType.json [] 0) Pipe.stdOut
        tsN [97, 10] stNoLimit 0).2.1 rfl,
      (c9_max_size_mapping [] (LogConfig.mk DriverType.json [] 7) Pipe.stdOut
        tsN [97, 10] stNoLimit 0).2.2.1 (by decide),
      (c9_max_size_mapping [] (LogConfig.mk DriverType.json [] 0) Pipe.stdOut
        tsN [97, 10] stNoLimit 0).2.2.2 rfl⟩⟩

/-- C6: every multiplexer operation (init, reopen, write) runs each
per-driver sub-operation to completion: the final driver list is exactly the
list of per-driver post-states regardless of failures (no rollback); the
operation succeeds when every sub-operation does, and otherwise returns the
error of the first failing driver in iteration order. -/
theorem c6_fanout_first_error_no_rollback (op : MuxOp) (cl : ContainerLog) :
    (op.run cl).1.drivers = cl.drivers.map (fun d => (op.driverStep d).1) ∧
    ((∀ d ∈ cl.drivers, (op.driverStep d).2 = Except.ok ()) →
      (op.run cl).2 = Except.ok ()) ∧
    (∀ (pre post : List LogDriver) (d : LogDriver) (err : String),
      cl.drivers = pre ++ d :: post →
      (∀ d2 ∈ pre, (op.driverStep d2).2 = Except.ok ()) →
      (op.driverStep d).2 = Except.error err →
      (op.run cl).2 = Except.error err) := by
  cases op with
  | init => exact fanOutSpec LogDriver.init cl.drivers
  | reopen => exact fanOutSpec LogDriver.reopen cl.drivers
  | write pipe ts bs =>
    exact fanOutSpec (fun d => d.write pipe ts bs) cl.drivers

/-- A multiplexer holding one initialized and one uninitialized JSON driver. -/
def c6Cl : ContainerLog := ⟨[LogDriver.json stNoLimit, LogDriver.json stU]⟩

/-- The fanned-out write of one line used in the concrete fan-out scenario. -/
def c6Op : MuxOp := MuxOp.write Pipe.stdOut tsN [97, 10]

theorem c6_fanout_first_error_no_rollback_witness :
    (c6Cl.drivers = [LogDriver.json stNoLimit] ++ LogDriver.json stU :: [] ∧
      (∀ d2 ∈ [LogDriver.json stNoLimit],
        (c6Op.driverStep d2).2 = Except.ok ()) ∧
      (c6Op.driverStep (LogDriver.json stU)).2 =
        Except.error errUninitialized) ∧
    ((c6Op.run c6Cl).2 = Except.error errUninitialized ∧
      (c6Op.run c6Cl).1.drivers =
        c6Cl.drivers.map (fun d => (c6Op.driverStep d).1)) :=
  ⟨⟨rfl,
      by
        intro d2 h
        rw [List.mem_singleton] at h
        subst h
        rfl,
      rfl⟩,
    ⟨(c6_fanout_first_error_no_rollback c6Op c6Cl).2.2
        [LogDriver.json stNoLimit] [] (LogDriver.json stU) errUninitialized
        rfl
        (by
          intro d2 h
          rw [List.mem_singleton] at h
          subst h
          rfl)
        rfl,
      (c6_fanout_first_error_no_rollback c6Op c6Cl).1⟩⟩

/-- A two-driver multiplexer: one driver without a size limit, one whose
threshold of a single byte forces a rotation at every record. -/
def c8Cl : ContainerLog := ⟨[LogDriver.json stNoLimit, LogDriver.json stM]⟩

/-- C8 counterexample: the same two-line write fans out to both drivers; the
no-limit driver's file ends with both records, but the rotating driver's
file ends with only the second record — so not every driver's file contains
the complete set of input lines. -/
theorem c8_counterexample_rotation_drops_lines :
    (c8Cl.write Pipe.stdOut tsN [97, 10, 97, 10]).2 = Except.ok () ∧
    (c8Cl.write Pipe.stdOut tsN [97, 10, 97, 10]).1.drivers =
      [LogDriver.json (stNoLimit.write Pipe.stdOut tsN [97, 10, 97, 10]).1,
        LogDriver.json (stM.write Pipe.stdOut tsN [97, 10, 97, 10]).1] ∧
    (splitLines [97, 10, 97, 10]).length = 2 ∧
    fileContent (stNoLimit.write Pipe.stdOut tsN [97, 10, 97, 10]).1 =
      recsPayload
        (entriesFrom Pipe.stdOut tsN 0 (splitLines [97, 10, 97, 10])) ∧
    fileContent (stM.write Pipe.stdOut tsN [97, 10, 97, 10]).1 =
      recBytes eA ++ [10] ∧
    fileContent (stM.write Pipe.stdOut tsN [97, 10, 97, 10]).1 ≠
      recsPayload
        (entriesFrom Pipe.stdOut tsN 0 (splitLines [97, 10, 97, 10])) :=
  ⟨rfl, rfl, rfl, rfl, rfl, by decide⟩

/-- C8 (amended): one multiplexer write hands every JSON driver its own full
copy of the stream — the multiplexer's post-state is exactly each driver
having run the complete write independently, and the call succeeds — and
when every driver is initialized and no driver's size check triggers during
the call, every driver's file ends up holding the records for the complete
set of input lines, in order. -/
theorem c8_fanout_full_copies (jsts : List JsonLogger) (pipe : Pipe)
    (ts : Nat → List Char) (bs : List Nat)
    (hinit : ∀ st ∈ jsts, st.file.isSome)
    (hnr : ∀ st ∈ jsts, ∀ m, st.maxLogSize = some m →
      st.bytesWritten + sizesSum (entriesFrom pipe ts 0 (splitLines bs)) ≤ m) :
    ((ContainerLog.mk (jsts.map LogDriver.json)).write pipe ts bs).1.drivers =
      jsts.map (fun st => LogDriver.json (st.write pipe ts bs).1) ∧
    ((ContainerLog.mk (jsts.map LogDriver.json)).write pipe ts bs).2 =
      Except.ok () ∧
    ∀ st ∈ jsts,
      (st.write pipe ts bs).2 = Except.ok () ∧
      fileContent (st.write pipe ts bs).1 =
        fileContent st ++
          recsPayload (entriesFrom pipe ts 0 (splitLines bs)) ∧
      wroteEntries ((st.write pipe ts bs).1.events.drop st.events.length) =
        entriesFrom pipe ts 0 (splitLines bs) := by
  have hchar : ∀ st ∈ jsts, ∃ f, st.file = some f ∧
      st.writeLines pipe ts 0 (splitLines bs) =
        ({ st with
            file := some (appendRecs f (entriesFrom pipe ts 0 (splitLines bs)))
            bytesWritten := st.bytesWritten +
              sizesSum (entriesFrom pipe ts 0 (splitLines bs))
            events := st.events ++
              (entriesFrom pipe ts 0 (splitLines bs)).map Ev.wrote },
          Except.ok ()) := by
    intro st hst
    obtain ⟨f, hf⟩ := Option.isSome_iff_exists.1 (hinit st hst)
    exact ⟨f, hf, JsonLogger.writeLines_noRot pipe ts (splitLines bs) 0 st f
      hf (hnr st hst)⟩
  refine ⟨?_, ?_, ?_⟩
  · simp only [ContainerLog.write, List.map_map]
    apply List.map_congr_left
    intro st _
    simp [LogDriver.write, Function.comp]
  · simp only [ContainerLog.write, List.map_map]
    apply collectResults_all_ok
    intro r hr
    simp only [List.mem_map, Function.comp] at hr
    obtain ⟨st, hst, hrst⟩ := hr
    obtain ⟨f, _, heq⟩ := hchar st hst
    rw [← hrst]
    show (LogDriver.write (LogDriver.json st) pipe ts bs).2 = Except.ok ()
    simp only [LogDriver.write, JsonLogger.write, heq]
  · intro st hst
    obtain ⟨f, hf, heq⟩ := hchar st hst
    refine ⟨?_, ?_, ?_⟩
    · rw [JsonLogger.write, heq]
    · rw [JsonLogger.write, heq]
      simp [fileContent, hf, FileSt.content_appendRecs]
    · rw [JsonLogger.write, heq]
      simp only [List.drop_left]
      exact wroteEntries_map_wrote _

theorem c8_fanout_full_copies_witness :
    ((∀ st ∈ [stNoLimit], st.file.isSome) ∧
      (splitLines [97, 10]).length = 1) ∧
    (((ContainerLog.mk ([stNoLimit].map LogDriver.json)).write Pipe.stdOut
        tsN [97, 10]).2 = Except.ok () ∧
     fileContent (stNoLimit.write Pipe.stdOut tsN [97, 10]).1 =
       fileContent stNoLimit ++
         recsPayload (entriesFrom Pipe.stdOut tsN 0 (splitLines [97, 10]))) :=
  ⟨⟨by decide, by decide⟩,
    ⟨(c8_fanout_full_copies [stNoLimit] Pipe.stdOut tsN [97, 10] (by decide)
        (by
          intro st hst m hm
          rw [List.mem_singleton] at hst
          subst hst
          exact Option.noConfusion hm)).2.1,
      ((c8_fanout_full_copies [stNoLimit] Pipe.stdOut tsN [97, 10]
          (by decide)
          (by
            intro st hst m hm
            rw [List.mem_singleton] at hst
            subst hst
            exact Option.noConfusion hm)).2.2 stNoLimit
        (by simp)).2.1⟩⟩
